import Mathlib

/-!
Verification of gcc/tree-ssa-cmp.cc (the "cmp" GIMPLE optimization pass).

The pass rewrites `(x - y) CMP 0` to `x CMP y` and `0 CMP (x - y)` to
`y CMP x` in GIMPLE conditional statements, where CMP is one of the four
ordered relational operators and `x - y` is a subtraction of two signed
integers.  We shallowly embed the parts of the source the claims are
about: the tree/GIMPLE data model as used by the pass, the classifier
`prop_integer_zero_or_minus_expr`, the rewriter
`optimize_signed_comparison`, the dominator walk over basic blocks
(`cmp_dom_walker::after_dom_children` applied block by block), and the
pass gate.
-/

namespace TreeSsaCmp

/-- The tree codes the pass manipulates.  Only the codes the source
touches are modelled; `code_num` below reproduces their relative order
in gcc/tree.def, which the guard `code < LT_EXPR || GE_EXPR < code`
relies on (the four ordered comparison codes are consecutive and the
equality codes lie outside that interval). -/
inductive tree_code where
  | PLUS_EXPR
  | MINUS_EXPR
  | MULT_EXPR
  | LT_EXPR
  | LE_EXPR
  | GT_EXPR
  | GE_EXPR
  | EQ_EXPR
  | NE_EXPR
  deriving DecidableEq

/-- Position of a modelled tree code in gcc/tree.def order (only the
relative order matters for the comparison-range guard). -/
def code_num : tree_code → Nat
  | tree_code.PLUS_EXPR => 0
  | tree_code.MINUS_EXPR => 1
  | tree_code.MULT_EXPR => 2
  | tree_code.LT_EXPR => 3
  | tree_code.LE_EXPR => 4
  | tree_code.GT_EXPR => 5
  | tree_code.GE_EXPR => 6
  | tree_code.EQ_EXPR => 7
  | tree_code.NE_EXPR => 8

/-- Codes of types (TREE_CODE of a type node). -/
inductive ty_code where
  | INTEGER_TYPE
  | BOOLEAN_TYPE
  | REAL_TYPE
  | POINTER_TYPE
  deriving DecidableEq

/-- A type node: its code and its TYPE_UNSIGNED flag. -/
structure Ty where
  code : ty_code
  type_unsigned : Bool
  deriving DecidableEq

/-- The trees the pass handles: integer constants, SSA names, and the
MINUS_EXPR nodes built by `build2` inside the classifier. -/
inductive tree where
  | INTEGER_CST (ty : Ty) (value : Int)
  | SSA_NAME (ty : Ty) (version : Nat)
  | MINUS_NODE (ty : Ty) (op0 op1 : tree)
  deriving DecidableEq

/-- TREE_TYPE of a modelled tree. -/
def TREE_TYPE : tree → Ty
  | tree.INTEGER_CST ty _ => ty
  | tree.SSA_NAME ty _ => ty
  | tree.MINUS_NODE ty _ _ => ty

/-- `integer_zerop`: true iff the tree is an INTEGER_CST whose value is
zero (no type check at all, matching the GCC predicate). -/
def integer_zerop : tree → Bool
  | tree.INTEGER_CST _ v => v == 0
  | _ => false

/-- `is_signed_integer` from tree-ssa-cmp.cc:
`TREE_CODE (TREE_TYPE (var)) == INTEGER_TYPE && !TYPE_UNSIGNED (TREE_TYPE (var))`. -/
def is_signed_integer (var : tree) : Bool :=
  (TREE_TYPE var).code == ty_code.INTEGER_TYPE && !(TREE_TYPE var).type_unsigned

/-- The statement returned by SSA_NAME_DEF_STMT, as far as the classifier
inspects it: a GIMPLE assignment with its rhs code and (binary) rhs
operands, or a non-assignment statement.  (A MINUS_EXPR assignment is
always binary in GIMPLE, so the binary shape is the only one the
classifier can accept.) -/
inductive gstmt where
  | GIMPLE_ASSIGN (rhs_code : tree_code) (rhs1 rhs2 : tree)
  | GIMPLE_NOP
  | GIMPLE_CALL
  deriving DecidableEq

/-- `prop_integer_zero_or_minus_expr`: if EXPR is an integer zero, return
it; if EXPR is an SSA_NAME whose defining statement is a subtraction of
two signed integers, return the MINUS_EXPR built from its operands;
otherwise return NULL_TREE (`none`).  `defstmt` is the SSA_NAME_DEF_STMT
lookup. -/
def prop_integer_zero_or_minus_expr (defstmt : Nat → gstmt) (expr : tree) : Option tree :=
  if integer_zerop expr then some expr
  else
    match expr with
    | tree.SSA_NAME ty v =>
      match defstmt v with
      | gstmt.GIMPLE_ASSIGN rhs_code rhs1 rhs2 =>
        if rhs_code ≠ tree_code.MINUS_EXPR then none
        else if !is_signed_integer rhs1 then none
        else if !is_signed_integer rhs2 then none
        else some (tree.MINUS_NODE ty rhs1 rhs2)
      | _ => none
    | _ => none

/-- A GIMPLE_COND statement: comparison code, lhs and rhs operands. -/
structure gcond where
  code : tree_code
  lhs : tree
  rhs : tree
  deriving DecidableEq

/-- The comparison-range guard of `optimize_signed_comparison`:
true iff NOT `code < LT_EXPR || GE_EXPR < code`, i.e. the code is one of
LT_EXPR, LE_EXPR, GT_EXPR, GE_EXPR. -/
def is_ordered_cmp (c : tree_code) : Bool :=
  !(code_num c < code_num tree_code.LT_EXPR || code_num tree_code.GE_EXPR < code_num c)

/-- `optimize_signed_comparison`: rewrite `(x - y) CMP 0` to `x CMP y`
and `0 CMP (x - y)` to `y CMP x`, for CMP in {<, <=, >, >=}.  The C
function mutates STMT in place (and calls `update_stmt`, a cache refresh
with no semantic content); here it returns the resulting statement. -/
def optimize_signed_comparison (defstmt : Nat → gstmt) (stmt : gcond) : gcond :=
  if code_num stmt.code < code_num tree_code.LT_EXPR
      ∨ code_num tree_code.GE_EXPR < code_num stmt.code then stmt
  else
    match prop_integer_zero_or_minus_expr defstmt stmt.lhs with
    | none => stmt
    | some lhs =>
      match prop_integer_zero_or_minus_expr defstmt stmt.rhs with
      | none => stmt
      | some rhs =>
        match lhs, rhs with
        | tree.MINUS_NODE _ x y, rhs =>
          -- Case 1: (x - y) CMP 0  =>  x CMP y
          if integer_zerop rhs then { stmt with lhs := x, rhs := y } else stmt
        | lhs, tree.MINUS_NODE _ x y =>
          -- Case 2: 0 CMP (x - y)  =>  y CMP x
          if integer_zerop lhs then { stmt with lhs := y, rhs := x } else stmt
        | _, _ => stmt

/-- A GIMPLE statement as it sits in a basic block: a conditional, an
assignment (defining one SSA version), a label, or anything else.  Only
conditionals are touched by the pass; `gsi_after_labels` skips the
leading labels of a block. -/
inductive instr where
  | cond (c : gcond)
  | assign (lhs_version : Nat) (rhs_code : tree_code) (rhs1 rhs2 : tree)
  | label
  | other
  deriving DecidableEq

/-- A basic block: its ordered statement sequence. -/
structure basic_block where
  stmts : List instr
  deriving DecidableEq

/-- A function body: the CFG's blocks and its edge list.  The pass never
touches the edges; they are carried to state frame conditions. -/
structure function_body where
  blocks : List basic_block
  edges : List (Nat × Nat)
  deriving DecidableEq

/-- All statements of the body in block order. -/
def body_stmts (f : function_body) : List instr :=
  (f.blocks.map basic_block.stmts).flatten

/-- Scan a statement list for the (unique, under SSA) assignment defining
version V. -/
def find_def (v : Nat) : List instr → Option gstmt
  | [] => none
  | instr.assign lv c r1 r2 :: rest =>
    if lv = v then some (gstmt.GIMPLE_ASSIGN c r1 r2) else find_def v rest
  | _ :: rest => find_def v rest

/-- SSA_NAME_DEF_STMT over a function body: the defining assignment of a
version, or GIMPLE_NOP when the version has no definition in the body. -/
def SSA_NAME_DEF_STMT (f : function_body) (v : Nat) : gstmt :=
  (find_def v (body_stmts f)).getD gstmt.GIMPLE_NOP

/-- True for GIMPLE_LABEL statements (skipped by `gsi_after_labels`). -/
def is_label : instr → Bool
  | instr.label => true
  | _ => false

/-- True for GIMPLE_COND statements. -/
def is_cond : instr → Bool
  | instr.cond _ => true
  | _ => false

/-- The loop body of `cmp_dom_walker::after_dom_children` on one
statement: conditionals are optimized, everything else is untouched. -/
def optimize_stmt (defstmt : Nat → gstmt) : instr → instr
  | instr.cond c => instr.cond (optimize_signed_comparison defstmt c)
  | s => s

/-- `cmp_dom_walker::after_dom_children` on one basic block: iterate from
`gsi_after_labels` (i.e. past the leading labels) and optimize every
GIMPLE_COND. -/
def after_dom_children (defstmt : Nat → gstmt) (bb : basic_block) : basic_block :=
  ⟨bb.stmts.takeWhile is_label ++ (bb.stmts.dropWhile is_label).map (optimize_stmt defstmt)⟩

/-- One visit of the dominator walk: process block I of the current body,
looking SSA definitions up in the current (possibly already partially
rewritten) body — this models the in-place mutation of the C code. -/
def walk_step (i : Nat) (f : function_body) : function_body :=
  { f with
    blocks := f.blocks.set i (after_dom_children (SSA_NAME_DEF_STMT f) (f.blocks.getD i ⟨[]⟩)) }

/-- The dominator walk: visit the blocks in the given order (the source's
`dom_walker` produces one particular order — a walk of the dominator
tree visiting every block exactly once). -/
def walk_blocks : List Nat → function_body → function_body
  | [], f => f
  | i :: rest, f => walk_blocks rest (walk_step i f)

/-- `pass_cmp::execute`: walk all blocks (the dominance computation that
precedes the walk only produces the visiting order). -/
def pass_cmp_execute (order : List Nat) (f : function_body) : function_body :=
  walk_blocks order f

/-- `pass_cmp::gate`: `flag_tree_cmp != 0 && flag_wrapv == 0`. -/
def gate (flag_tree_cmp flag_wrapv : Int) : Bool :=
  flag_tree_cmp != 0 && flag_wrapv == 0

/-- The pass as the pass manager runs it: `execute` fires only when the
gate holds, otherwise the body is left untouched. -/
def run_pass (flag_tree_cmp flag_wrapv : Int) (order : List Nat)
    (f : function_body) : function_body :=
  if gate flag_tree_cmp flag_wrapv then pass_cmp_execute order f else f

/-- The SSA version an instruction defines, if any. -/
def def_version_of : instr → Option Nat
  | instr.assign v _ _ _ => some v
  | _ => none

/-- SSA versions defined by assignments of the body, in order. -/
def def_versions (f : function_body) : List Nat :=
  (body_stmts f).filterMap def_version_of

/-- The statement at position J of block I, if any. -/
def stmt_at (f : function_body) (i j : Nat) : Option instr :=
  (f.blocks.getD i ⟨[]⟩).stmts[j]?

/-- The SSA single-definition property: no version is assigned twice. -/
def ssa_single_defs (f : function_body) : Prop :=
  (def_versions f).Nodup

/-!  ## Machine-integer semantics for the soundness claim

Signed w-bit wrap-around: reduce an integer into [-2^(w-1), 2^(w-1)).
Under `-fno-wrapv` a non-overflowing subtraction computes its
mathematical value; `swrap` lets the overflow hypothesis be stated. -/

/-- Two's-complement reduction of Z at width W. -/
def swrap (w : Nat) (z : Int) : Int :=
  (z + 2 ^ (w - 1)) % 2 ^ w - 2 ^ (w - 1)

/-- Evaluation of a comparison code on two integers (tcc_comparison
semantics; non-comparison codes evaluate to false). -/
def eval_cmp (c : tree_code) (a b : Int) : Bool :=
  match c with
  | tree_code.LT_EXPR => decide (a < b)
  | tree_code.LE_EXPR => decide (a ≤ b)
  | tree_code.GT_EXPR => decide (b < a)
  | tree_code.GE_EXPR => decide (b ≤ a)
  | tree_code.EQ_EXPR => a == b
  | tree_code.NE_EXPR => a != b
  | _ => false

/-- Guard used to state when re-running `optimize_signed_comparison` is a
no-op: the operand does not classify as a subtraction one of whose own
operands is an integer-constant zero. -/
def no_zero_sub_operand (defstmt : Nat → gstmt) (e : tree) : Bool :=
  match prop_integer_zero_or_minus_expr defstmt e with
  | some (tree.MINUS_NODE _ x y) => !integer_zerop x && !integer_zerop y
  | _ => true

/-!  ## Concrete instances used to instantiate the theorems -/

/-- A signed integer type (e.g. `int`). -/
def sIntTy : Ty := ⟨ty_code.INTEGER_TYPE, false⟩

/-- An unsigned integer type (e.g. `unsigned int`). -/
def uIntTy : Ty := ⟨ty_code.INTEGER_TYPE, true⟩

/-- The signed integer constant 0. -/
def zeroS : tree := tree.INTEGER_CST sIntTy 0

/-- A signed SSA name `x_10`. -/
def xT : tree := tree.SSA_NAME sIntTy 10

/-- A signed SSA name `y_11`. -/
def yT : tree := tree.SSA_NAME sIntTy 11

/-- Definitions: version 0 is `x_10 - y_11`, everything else undefined. -/
def env1 : Nat → gstmt := fun v =>
  if v = 0 then gstmt.GIMPLE_ASSIGN tree_code.MINUS_EXPR xT yT else gstmt.GIMPLE_NOP

/-- Definitions: version 0 is `x_10 - y_11` and version 1 is the
zero-operand subtraction `v_0 - 0`. -/
def env6 : Nat → gstmt := fun v =>
  if v = 0 then gstmt.GIMPLE_ASSIGN tree_code.MINUS_EXPR xT yT
  else if v = 1 then gstmt.GIMPLE_ASSIGN tree_code.MINUS_EXPR (tree.SSA_NAME sIntTy 0) zeroS
  else gstmt.GIMPLE_NOP

/-- A single-block body: `v_0 := x - y; v_1 := v_0 - 0; if (v_1 < 0)`. -/
def fb6 : function_body :=
  ⟨[⟨[instr.assign 0 tree_code.MINUS_EXPR xT yT,
      instr.assign 1 tree_code.MINUS_EXPR (tree.SSA_NAME sIntTy 0) zeroS,
      instr.cond ⟨tree_code.LT_EXPR, tree.SSA_NAME sIntTy 1, zeroS⟩]⟩], []⟩

/-- A two-block body: `v_0 := x - y` and a conditional per block. -/
def fb9 : function_body :=
  ⟨[⟨[instr.label,
      instr.assign 0 tree_code.MINUS_EXPR xT yT,
      instr.cond ⟨tree_code.GT_EXPR, tree.SSA_NAME sIntTy 0, zeroS⟩]⟩,
    ⟨[instr.cond ⟨tree_code.LT_EXPR, zeroS, tree.SSA_NAME sIntTy 0⟩,
      instr.other]⟩], [(0, 1)]⟩

end TreeSsaCmp

namespace TreeSsaCmp

/-!  ## Soundness of the identity (claim C1) -/

/-- C1: for signed integers x, y whose difference neither overflows nor
underflows at width w, `(x - y) OP 0` and `x OP y` evaluate identically
for every ordered operator OP, and `0 OP (x - y)` evaluates like
`y OP x`. -/
theorem claim1 (w : Nat) (x y : Int) (c : tree_code)
    (hw : 0 < w)
    (hc : is_ordered_cmp c = true)
    (_hxlo : -(2 ^ (w - 1)) ≤ x) (_hxhi : x < 2 ^ (w - 1))
    (_hylo : -(2 ^ (w - 1)) ≤ y) (_hyhi : y < 2 ^ (w - 1))
    (hlo : -(2 ^ (w - 1)) ≤ x - y) (hhi : x - y < 2 ^ (w - 1)) :
    eval_cmp c (swrap w (x - y)) 0 = eval_cmp c x y ∧
    eval_cmp c 0 (swrap w (x - y)) = eval_cmp c y x := by
  have h2 : (2 : Int) ^ w = 2 ^ (w - 1) * 2 := by
    rw [← pow_succ]
    congr 1
    omega
  have hz : swrap w (x - y) = x - y := by
    unfold swrap
    have h0 : 0 ≤ x - y + 2 ^ (w - 1) := by linarith
    have h1 : x - y + 2 ^ (w - 1) < 2 ^ w := by rw [h2]; linarith
    rw [Int.emod_eq_of_lt h0 h1]
    ring
  rw [hz]
  cases c
  all_goals first
    | exact absurd hc (by decide)
    | (refine ⟨?_, ?_⟩ <;> simp only [eval_cmp, decide_eq_decide] <;> omega)

theorem claim1_witness :
    eval_cmp tree_code.LT_EXPR (swrap 32 ((5 : Int) - 7)) 0
      = eval_cmp tree_code.LT_EXPR 5 7 ∧
    eval_cmp tree_code.LT_EXPR 0 (swrap 32 ((5 : Int) - 7))
      = eval_cmp tree_code.LT_EXPR 7 5 :=
  claim1 32 5 7 tree_code.LT_EXPR (by decide) (by decide) (by decide) (by decide)
    (by decide) (by decide) (by decide) (by decide)

/-!  ## Shape lemmas about the classifier and the rewriter -/

/-- A successful classification is either the zero constant itself or a
freshly built MINUS_EXPR node. -/
lemma prop_shape {d : Nat → gstmt} {e t : tree}
    (h : prop_integer_zero_or_minus_expr d e = some t) :
    (t = e ∧ integer_zerop e = true) ∨ ∃ ty x y, t = tree.MINUS_NODE ty x y := by
  unfold prop_integer_zero_or_minus_expr at h
  by_cases hz : integer_zerop e = true
  · rw [if_pos hz] at h
    exact Or.inl ⟨(Option.some.inj h).symm, hz⟩
  · rw [if_neg hz] at h
    cases e with
    | INTEGER_CST ty v => exact absurd h (by simp)
    | MINUS_NODE ty a b => exact absurd h (by simp)
    | SSA_NAME ty v =>
      dsimp only at h
      cases hd : d v with
      | GIMPLE_ASSIGN c r1 r2 =>
        rw [hd] at h
        dsimp only at h
        by_cases h1 : c ≠ tree_code.MINUS_EXPR
        · rw [if_pos h1] at h; exact absurd h (by simp)
        · rw [if_neg h1] at h
          by_cases h2 : !is_signed_integer r1
          · rw [if_pos h2] at h; exact absurd h (by simp)
          · rw [if_neg h2] at h
            by_cases h3 : !is_signed_integer r2
            · rw [if_pos h3] at h; exact absurd h (by simp)
            · rw [if_neg h3] at h
              exact Or.inr ⟨ty, r1, r2, (Option.some.inj h).symm⟩
      | GIMPLE_NOP => rw [hd] at h; exact absurd h (by simp)
      | GIMPLE_CALL => rw [hd] at h; exact absurd h (by simp)

/-- A MINUS_EXPR node is never an integer zero. -/
lemma integer_zerop_minus (ty : Ty) (a b : tree) :
    integer_zerop (tree.MINUS_NODE ty a b) = false := rfl

/-- The comparison-range guard, unfolded to the source's test. -/
lemma is_ordered_cmp_false_iff (c : tree_code) :
    is_ordered_cmp c = false ↔
      (code_num c < code_num tree_code.LT_EXPR ∨
       code_num tree_code.GE_EXPR < code_num c) := by
  cases c <;> decide

/-- Rewriter equation: a code outside [LT_EXPR, GE_EXPR] returns at once. -/
lemma opt_of_guard (d : Nat → gstmt) (s : gcond)
    (hg : code_num s.code < code_num tree_code.LT_EXPR ∨
          code_num tree_code.GE_EXPR < code_num s.code) :
    optimize_signed_comparison d s = s := by
  unfold optimize_signed_comparison
  rw [if_pos hg]

/-- Rewriter equation: an unclassifiable left operand means no change. -/
lemma opt_of_lhs_none (d : Nat → gstmt) (s : gcond)
    (hl : prop_integer_zero_or_minus_expr d s.lhs = none) :
    optimize_signed_comparison d s = s := by
  unfold optimize_signed_comparison
  rw [hl]
  split <;> rfl

/-- Rewriter equation: an unclassifiable right operand means no change. -/
lemma opt_of_rhs_none (d : Nat → gstmt) (s : gcond)
    (hr : prop_integer_zero_or_minus_expr d s.rhs = none) :
    optimize_signed_comparison d s = s := by
  unfold optimize_signed_comparison
  rw [hr]
  split
  · rfl
  · split <;> rfl

/-- Rewriter equation, case 1: `(x - y) CMP 0` becomes `x CMP y`. -/
lemma opt_caseA (d : Nat → gstmt) (s : gcond) {ty : Ty} {x y r : tree}
    (hg : ¬(code_num s.code < code_num tree_code.LT_EXPR ∨
            code_num tree_code.GE_EXPR < code_num s.code))
    (hl : prop_integer_zero_or_minus_expr d s.lhs = some (tree.MINUS_NODE ty x y))
    (hr : prop_integer_zero_or_minus_expr d s.rhs = some r)
    (hz : integer_zerop r = true) :
    optimize_signed_comparison d s = { s with lhs := x, rhs := y } := by
  unfold optimize_signed_comparison
  rw [if_neg hg, hl, hr]
  cases r with
  | INTEGER_CST t v => simp only [hz, if_true]
  | SSA_NAME t v => exact absurd hz (by simp [integer_zerop])
  | MINUS_NODE t a b => exact absurd hz (by simp [integer_zerop])

/-- Rewriter equation, case 2: `0 CMP (x - y)` becomes `y CMP x`. -/
lemma opt_caseB (d : Nat → gstmt) (s : gcond) {ty : Ty} {x y l : tree}
    (hg : ¬(code_num s.code < code_num tree_code.LT_EXPR ∨
            code_num tree_code.GE_EXPR < code_num s.code))
    (hl : prop_integer_zero_or_minus_expr d s.lhs = some l)
    (hz : integer_zerop l = true)
    (hr : prop_integer_zero_or_minus_expr d s.rhs = some (tree.MINUS_NODE ty x y)) :
    optimize_signed_comparison d s = { s with lhs := y, rhs := x } := by
  unfold optimize_signed_comparison
  rw [if_neg hg, hl, hr]
  cases l with
  | INTEGER_CST t v => simp only [hz, if_true]
  | SSA_NAME t v => exact absurd hz (by simp [integer_zerop])
  | MINUS_NODE t a b => exact absurd hz (by simp [integer_zerop])

/-- Rewriter equation: when neither rewrite condition holds, no change.
The two hypotheses deny exactly the two fire conditions of the source:
left classified MINUS_EXPR with zero right, and zero left with right
classified MINUS_EXPR. -/
lemma opt_no_fire (d : Nat → gstmt) (s : gcond) {l r : tree}
    (hl : prop_integer_zero_or_minus_expr d s.lhs = some l)
    (hr : prop_integer_zero_or_minus_expr d s.rhs = some r)
    (h1 : ∀ ty x y, l = tree.MINUS_NODE ty x y → integer_zerop r = false)
    (h2 : ∀ ty x y, r = tree.MINUS_NODE ty x y → integer_zerop l = false) :
    optimize_signed_comparison d s = s := by
  unfold optimize_signed_comparison
  split
  · rfl
  rw [hl, hr]
  cases l with
  | MINUS_NODE t a b =>
    have hz := h1 t a b rfl
    cases r <;> simp [hz]
  | INTEGER_CST t v =>
    cases r with
    | MINUS_NODE t2 a b => simp [h2 t2 a b rfl]
    | INTEGER_CST t2 v2 => rfl
    | SSA_NAME t2 v2 => rfl
  | SSA_NAME t v =>
    cases r with
    | MINUS_NODE t2 a b => simp [h2 t2 a b rfl]
    | INTEGER_CST t2 v2 => rfl
    | SSA_NAME t2 v2 => rfl

/-- Full characterization: the rewriter leaves the comparison alone or
replaces both operands together by the operands of one classified
subtraction. -/
lemma opt_result (d : Nat → gstmt) (s : gcond) :
    optimize_signed_comparison d s = s ∨
    ∃ ty x y,
      (prop_integer_zero_or_minus_expr d s.lhs = some (tree.MINUS_NODE ty x y) ∧
        optimize_signed_comparison d s = { s with lhs := x, rhs := y }) ∨
      (prop_integer_zero_or_minus_expr d s.rhs = some (tree.MINUS_NODE ty x y) ∧
        optimize_signed_comparison d s = { s with lhs := y, rhs := x }) := by
  by_cases hg : code_num s.code < code_num tree_code.LT_EXPR ∨
      code_num tree_code.GE_EXPR < code_num s.code
  · exact Or.inl (opt_of_guard d s hg)
  cases hl : prop_integer_zero_or_minus_expr d s.lhs with
  | none => exact Or.inl (opt_of_lhs_none d s hl)
  | some l =>
    cases hr : prop_integer_zero_or_minus_expr d s.rhs with
    | none => exact Or.inl (opt_of_rhs_none d s hr)
    | some r =>
      rcases prop_shape hl with ⟨hle, hlz⟩ | ⟨ty, x, y, hlm⟩
      · rcases prop_shape hr with ⟨hre, hrz⟩ | ⟨ty, x, y, hrm⟩
        · refine Or.inl (opt_no_fire d s hl hr ?_ ?_)
          · intro t a b hlm
            rw [hlm] at hle
            rw [← hle] at hlz
            exact absurd hlz (by simp [integer_zerop])
          · intro t a b hrm
            rw [hrm] at hre
            rw [← hre] at hrz
            exact absurd hrz (by simp [integer_zerop])
        · subst hrm
          have hlz2 : integer_zerop l = true := by rw [hle]; exact hlz
          exact Or.inr ⟨ty, x, y, Or.inr ⟨rfl, opt_caseB d s hg hl hlz2 hr⟩⟩
      · subst hlm
        rcases prop_shape hr with ⟨hre, hrz⟩ | ⟨ty2, x2, y2, hrm⟩
        · have hrz2 : integer_zerop r = true := by rw [hre]; exact hrz
          exact Or.inr ⟨ty, x, y, Or.inl ⟨rfl, opt_caseA d s hg hl hr hrz2⟩⟩
        · subst hrm
          refine Or.inl (opt_no_fire d s hl hr ?_ ?_)
          · intro t a b _
            exact integer_zerop_minus ty2 x2 y2
          · intro t a b _
            exact integer_zerop_minus ty x y

/-- The rewriter never changes the comparison code. -/
lemma opt_code (d : Nat → gstmt) (s : gcond) :
    (optimize_signed_comparison d s).code = s.code := by
  rcases opt_result d s with h | ⟨ty, x, y, ⟨_, h⟩ | ⟨_, h⟩⟩ <;> rw [h]

/-!  ## The rewrite cases (claim C2) -/

/-- C2: under an ordered operator, a left operand classified as
Subtraction(x, y) with a Zero right operand turns the comparison into
`x CMP y`; a Zero left operand with a right operand classified as
Subtraction(x, y) turns it into `y CMP x`; the operator is unchanged in
both cases (the code field is carried over). -/
theorem claim2 (d : Nat → gstmt) (s : gcond)
    (hc : is_ordered_cmp s.code = true) :
    (∀ ty x y z,
      prop_integer_zero_or_minus_expr d s.lhs = some (tree.MINUS_NODE ty x y) →
      prop_integer_zero_or_minus_expr d s.rhs = some z →
      integer_zerop z = true →
      optimize_signed_comparison d s = { s with lhs := x, rhs := y }) ∧
    (∀ ty x y z,
      prop_integer_zero_or_minus_expr d s.lhs = some z →
      integer_zerop z = true →
      prop_integer_zero_or_minus_expr d s.rhs = some (tree.MINUS_NODE ty x y) →
      optimize_signed_comparison d s = { s with lhs := y, rhs := x }) := by
  have hg : ¬(code_num s.code < code_num tree_code.LT_EXPR ∨
      code_num tree_code.GE_EXPR < code_num s.code) := by
    intro hcon
    rw [← is_ordered_cmp_false_iff] at hcon
    rw [hc] at hcon
    cases hcon
  exact ⟨fun ty x y z hl hr hz => opt_caseA d s hg hl hr hz,
         fun ty x y z hl hz hr => opt_caseB d s hg hl hz hr⟩

theorem claim2_witness :
    optimize_signed_comparison env1 ⟨tree_code.LT_EXPR, tree.SSA_NAME sIntTy 0, zeroS⟩
      = ⟨tree_code.LT_EXPR, xT, yT⟩ :=
  (claim2 env1 ⟨tree_code.LT_EXPR, tree.SSA_NAME sIntTy 0, zeroS⟩ (by decide)).1
    sIntTy xT yT zeroS (by decide) (by decide) (by decide)

/-!  ## The classifier's subtraction case (claim C3) -/

/-- C3: the classifier returns Subtraction(x, y) exactly for an SSA name
whose defining statement is a MINUS_EXPR assignment with both operands
signed integers, x and y being exactly those operands; and its answer
depends only on the defining statement of the inspected value itself
(one def-chain hop, no recursion into the operands' definitions). -/
theorem claim3 (d : Nat → gstmt) (expr : tree) :
    (∀ ty x y,
      prop_integer_zero_or_minus_expr d expr = some (tree.MINUS_NODE ty x y) →
      ∃ v, expr = tree.SSA_NAME ty v ∧
        d v = gstmt.GIMPLE_ASSIGN tree_code.MINUS_EXPR x y ∧
        is_signed_integer x = true ∧ is_signed_integer y = true) ∧
    (∀ ty v x y, expr = tree.SSA_NAME ty v →
      d v = gstmt.GIMPLE_ASSIGN tree_code.MINUS_EXPR x y →
      is_signed_integer x = true → is_signed_integer y = true →
      prop_integer_zero_or_minus_expr d expr = some (tree.MINUS_NODE ty x y)) ∧
    (∀ d2 : Nat → gstmt,
      (∀ ty v, expr = tree.SSA_NAME ty v → d2 v = d v) →
      prop_integer_zero_or_minus_expr d2 expr = prop_integer_zero_or_minus_expr d expr) := by
  refine ⟨?_, ?_, ?_⟩
  · intro ty x y h
    unfold prop_integer_zero_or_minus_expr at h
    by_cases hz : integer_zerop expr = true
    · rw [if_pos hz] at h
      have he := Option.some.inj h
      rw [he] at hz
      exact absurd hz (by simp [integer_zerop])
    · rw [if_neg hz] at h
      cases expr with
      | INTEGER_CST t v => exact absurd h (by simp)
      | MINUS_NODE t a b => exact absurd h (by simp)
      | SSA_NAME t v =>
        dsimp only at h
        cases hd : d v with
        | GIMPLE_ASSIGN c r1 r2 =>
          rw [hd] at h
          dsimp only at h
          by_cases h1 : c ≠ tree_code.MINUS_EXPR
          · rw [if_pos h1] at h; exact absurd h (by simp)
          · rw [if_neg h1] at h
            by_cases h2 : !is_signed_integer r1
            · rw [if_pos h2] at h; exact absurd h (by simp)
            · rw [if_neg h2] at h
              by_cases h3 : !is_signed_integer r2
              · rw [if_pos h3] at h; exact absurd h (by simp)
              · rw [if_neg h3] at h
                have he := Option.some.inj h
                injection he with hty hx hy
                refine ⟨v, by rw [hty], ?_, ?_, ?_⟩
                · rw [hd, hx, hy]
                  congr 1
                  exact Decidable.not_not.mp h1
                · rw [← hx]
                  exact Bool.not_not_eq.mp (by rw [Bool.not_eq_true]; exact Bool.of_not_eq_true h2)
                · rw [← hy]
                  exact Bool.not_not_eq.mp (by rw [Bool.not_eq_true]; exact Bool.of_not_eq_true h3)
        | GIMPLE_NOP => rw [hd] at h; exact absurd h (by simp)
        | GIMPLE_CALL => rw [hd] at h; exact absurd h (by simp)
  · intro ty v x y he hd hx hy
    subst he
    unfold prop_integer_zero_or_minus_expr
    rw [if_neg (by simp [integer_zerop])]
    dsimp only
    rw [hd]
    dsimp only
    rw [if_neg (by simp), if_neg (by rw [hx]; simp), if_neg (by rw [hy]; simp)]
  · intro d2 hagree
    cases expr with
    | INTEGER_CST t v => rfl
    | MINUS_NODE t a b => rfl
    | SSA_NAME t v =>
      unfold prop_integer_zero_or_minus_expr
      dsimp only
      rw [hagree t v rfl]

theorem claim3_witness :
    prop_integer_zero_or_minus_expr env1 (tree.SSA_NAME sIntTy 0)
      = some (tree.MINUS_NODE sIntTy xT yT) :=
  (claim3 env1 (tree.SSA_NAME sIntTy 0)).2.1 sIntTy 0 xT yT rfl (by decide)
    (by decide) (by decide)

/-!  ## Comparisons outside the four ordered operators (claim C4) -/

/-- C4: a comparison whose code is not one of LT_EXPR, LE_EXPR, GT_EXPR,
GE_EXPR — in particular EQ_EXPR or NE_EXPR — is left completely
unchanged, whatever its operands are. -/
theorem claim4 (d : Nat → gstmt) (s : gcond)
    (h : is_ordered_cmp s.code = false) :
    optimize_signed_comparison d s = s :=
  opt_of_guard d s ((is_ordered_cmp_false_iff s.code).mp h)

theorem claim4_witness :
    optimize_signed_comparison env1 ⟨tree_code.EQ_EXPR, tree.SSA_NAME sIntTy 0, zeroS⟩
      = ⟨tree_code.EQ_EXPR, tree.SSA_NAME sIntTy 0, zeroS⟩ :=
  claim4 env1 ⟨tree_code.EQ_EXPR, tree.SSA_NAME sIntTy 0, zeroS⟩ (by decide)

/-!  ## The pass gate (claim C5) -/

/-- C5: the gate holds iff the optimization flag is set and `-fwrapv` is
not; whenever `-fwrapv` is set the pass leaves every function body
untouched. -/
theorem claim5 (flag_tree_cmp flag_wrapv : Int) (order : List Nat) (f : function_body) :
    (gate flag_tree_cmp flag_wrapv = true ↔ (flag_tree_cmp ≠ 0 ∧ flag_wrapv = 0)) ∧
    (flag_wrapv ≠ 0 → run_pass flag_tree_cmp flag_wrapv order f = f) := by
  constructor
  · simp [gate]
  · intro h
    have hg : gate flag_tree_cmp flag_wrapv = false := by simp [gate, h]
    simp [run_pass, hg]

theorem claim5_witness :
    (gate 1 1 = true ↔ ((1 : Int) ≠ 0 ∧ (1 : Int) = 0)) ∧
    run_pass 1 1 [0] fb6 = fb6 :=
  ⟨(claim5 1 1 [0] fb6).1, (claim5 1 1 [0] fb6).2 (by decide)⟩

/-!  ## Idempotence (claim C6) -/

/-- C6 counterexample: the pass is NOT idempotent.  In
`v_0 := x - y; v_1 := v_0 - 0; if (v_1 < 0)` the first traversal
rewrites the condition to `if (v_0 < 0)` — whose operands again match
the pattern, because the subtraction's second operand was itself the
constant 0 — so a second traversal rewrites it further to `if (x < y)`. -/
theorem claim6_counterexample :
    pass_cmp_execute [0] (pass_cmp_execute [0] fb6) ≠ pass_cmp_execute [0] fb6 := by
  decide

/-- C6 (amended): a second application of the rewriter is a no-op
provided neither operand classifies as a subtraction one of whose own
source operands is an integer-constant zero (without this proviso a
rewritten comparison can match the pattern again). -/
theorem claim6 (d : Nat → gstmt) (s : gcond)
    (hl : no_zero_sub_operand d s.lhs = true)
    (hr : no_zero_sub_operand d s.rhs = true) :
    optimize_signed_comparison d (optimize_signed_comparison d s)
      = optimize_signed_comparison d s := by
  rcases opt_result d s with h | ⟨ty, x, y, ⟨hp, h⟩ | ⟨hp, h⟩⟩
  · rw [h, h]
  · -- case 1 fired: the new operands are x and y with x, y non-zero
    have hxy : integer_zerop x = false ∧ integer_zerop y = false := by
      unfold no_zero_sub_operand at hl
      rw [hp] at hl
      simp at hl
      exact hl
    rw [h]
    cases hx2 : prop_integer_zero_or_minus_expr d x with
    | none => exact opt_of_lhs_none d _ hx2
    | some l2 =>
      cases hy2 : prop_integer_zero_or_minus_expr d y with
      | none => exact opt_of_rhs_none d _ hy2
      | some r2 =>
        refine opt_no_fire d _ hx2 hy2 ?_ ?_
        · intro t a b hm
          rcases prop_shape hy2 with ⟨hre, hrz⟩ | ⟨t2, a2, b2, hrm⟩
          · rw [hre]
            exact hxy.2
          · rw [hrm]
            exact integer_zerop_minus t2 a2 b2
        · intro t a b hm
          rcases prop_shape hx2 with ⟨hle, hlz⟩ | ⟨t2, a2, b2, hlm⟩
          · rw [hle]
            exact hxy.1
          · rw [hlm]
            exact integer_zerop_minus t2 a2 b2
  · -- case 2 fired: the new operands are y and x with x, y non-zero
    have hxy : integer_zerop x = false ∧ integer_zerop y = false := by
      unfold no_zero_sub_operand at hr
      rw [hp] at hr
      simp at hr
      exact hr
    rw [h]
    cases hy2 : prop_integer_zero_or_minus_expr d y with
    | none => exact opt_of_lhs_none d _ hy2
    | some l2 =>
      cases hx2 : prop_integer_zero_or_minus_expr d x with
      | none => exact opt_of_rhs_none d _ hx2
      | some r2 =>
        refine opt_no_fire d _ hy2 hx2 ?_ ?_
        · intro t a b hm
          rcases prop_shape hx2 with ⟨hre, hrz⟩ | ⟨t2, a2, b2, hrm⟩
          · rw [hre]
            exact hxy.1
          · rw [hrm]
            exact integer_zerop_minus t2 a2 b2
        · intro t a b hm
          rcases prop_shape hy2 with ⟨hle, hlz⟩ | ⟨t2, a2, b2, hlm⟩
          · rw [hle]
            exact hxy.2
          · rw [hlm]
            exact integer_zerop_minus t2 a2 b2

theorem claim6_witness :
    optimize_signed_comparison env1
      (optimize_signed_comparison env1 ⟨tree_code.LT_EXPR, tree.SSA_NAME sIntTy 0, zeroS⟩)
    = optimize_signed_comparison env1 ⟨tree_code.LT_EXPR, tree.SSA_NAME sIntTy 0, zeroS⟩ :=
  claim6 env1 ⟨tree_code.LT_EXPR, tree.SSA_NAME sIntTy 0, zeroS⟩ (by decide) (by decide)

/-!  ## The classifier's zero case (claim C7) -/

/-- C7 counterexample: an UNSIGNED integer constant 0 also classifies as
Zero — the classifier's zero test (`integer_zerop`) checks no type at
all, contradicting the claim that only zeros of a signed-integer width
classify as Zero. -/
theorem claim7_counterexample :
    prop_integer_zero_or_minus_expr (fun _ => gstmt.GIMPLE_NOP) (tree.INTEGER_CST uIntTy 0)
      = some (tree.INTEGER_CST uIntTy 0) ∧
    is_signed_integer (tree.INTEGER_CST uIntTy 0) = false := by
  decide

/-- C7 (amended): the classifier returns Zero — i.e. echoes its argument
— exactly for integer constants with value 0 of ANY type (signedness and
width are not checked); no other value classifies as Zero. -/
theorem claim7 (d : Nat → gstmt) (expr : tree) :
    (integer_zerop expr = true → prop_integer_zero_or_minus_expr d expr = some expr) ∧
    (∀ t, prop_integer_zero_or_minus_expr d expr = some t → integer_zerop t = true →
      t = expr ∧ integer_zerop expr = true) := by
  constructor
  · intro h
    unfold prop_integer_zero_or_minus_expr
    rw [if_pos h]
  · intro t h hz
    rcases prop_shape h with ⟨he, hze⟩ | ⟨ty, x, y, hm⟩
    · exact ⟨he, hze⟩
    · rw [hm] at hz
      exact absurd hz (by simp [integer_zerop])

theorem claim7_witness :
    prop_integer_zero_or_minus_expr env1 zeroS = some zeroS :=
  (claim7 env1 zeroS).1 (by decide)

/-!  ## All-or-nothing rewriting (claim C10) -/

/-- C10: the rewriter either leaves the comparison entirely unchanged or
replaces both operands at once with the operand pair of one classified
subtraction; no execution replaces just one operand. -/
theorem claim10 (d : Nat → gstmt) (s : gcond) :
    optimize_signed_comparison d s = s ∨
    ∃ ty x y,
      (prop_integer_zero_or_minus_expr d s.lhs = some (tree.MINUS_NODE ty x y) ∧
        optimize_signed_comparison d s = { s with lhs := x, rhs := y }) ∨
      (prop_integer_zero_or_minus_expr d s.rhs = some (tree.MINUS_NODE ty x y) ∧
        optimize_signed_comparison d s = { s with lhs := y, rhs := x }) :=
  opt_result d s

/-!  ## List auxiliaries for the traversal -/

lemma getD_set_ne {α : Type} (a dflt : α) :
    ∀ (l : List α) (i j : Nat), i ≠ j → (l.set i a).getD j dflt = l.getD j dflt := by
  intro l
  induction l with
  | nil => intro i j _; rfl
  | cons hd tl ih =>
    intro i j hij
    cases i with
    | zero =>
      cases j with
      | zero => exact absurd rfl hij
      | succ m => rfl
    | succ n =>
      cases j with
      | zero => rfl
      | succ m => exact ih n m (fun hc => hij (by rw [hc]))

lemma getD_set_self {α : Type} (a dflt : α) :
    ∀ (l : List α) (i : Nat), i < l.length → (l.set i a).getD i dflt = a := by
  intro l
  induction l with
  | nil => intro i hi; exact absurd hi (by simp)
  | cons hd tl ih =>
    intro i hi
    cases i with
    | zero => rfl
    | succ n => exact ih n (by simpa using hi)

lemma getD_of_le {α : Type} (dflt : α) :
    ∀ (l : List α) (i : Nat), l.length ≤ i → l.getD i dflt = dflt := by
  intro l
  induction l with
  | nil => intro i _; cases i <;> rfl
  | cons hd tl ih =>
    intro i hi
    cases i with
    | zero => exact absurd hi (by simp)
    | succ n => exact ih n (by simpa using hi)

/-- Iterating from `gsi_after_labels` and rewriting every conditional is
the same as rewriting every statement of the block, because a label is
not a conditional. -/
lemma after_dom_children_eq_map (env : Nat → gstmt) (bb : basic_block) :
    after_dom_children env bb = ⟨bb.stmts.map (optimize_stmt env)⟩ := by
  unfold after_dom_children
  congr 1
  induction bb.stmts with
  | nil => rfl
  | cons a l ih =>
    cases ha : is_label a
    · simp [List.takeWhile_cons, List.dropWhile_cons, ha]
    · have haa : a = instr.label := by
        cases a <;> first | rfl | exact absurd ha (by simp [is_label])
      subst haa
      simp [List.takeWhile_cons, List.dropWhile_cons, is_label, optimize_stmt, ih]

/-!  ## `find_def` equations and invariance under the walk -/

lemma find_def_cons_assign (v lv : Nat) (c : tree_code) (r1 r2 : tree) (rest : List instr) :
    find_def v (instr.assign lv c r1 r2 :: rest)
      = if lv = v then some (gstmt.GIMPLE_ASSIGN c r1 r2) else find_def v rest := rfl

lemma find_def_cons_cond (v : Nat) (c : gcond) (rest : List instr) :
    find_def v (instr.cond c :: rest) = find_def v rest := rfl

lemma find_def_cons_label (v : Nat) (rest : List instr) :
    find_def v (instr.label :: rest) = find_def v rest := rfl

lemma find_def_cons_other (v : Nat) (rest : List instr) :
    find_def v (instr.other :: rest) = find_def v rest := rfl

/-- Rewriting the conditionals of a statement list leaves every
definition lookup unchanged: the rewriter touches no assignment. -/
lemma find_def_map_optimize (env : Nat → gstmt) (v : Nat) :
    ∀ l : List instr, find_def v (l.map (optimize_stmt env)) = find_def v l := by
  intro l
  induction l with
  | nil => rfl
  | cons a l ih =>
    cases a with
    | assign lv c r1 r2 =>
      rw [List.map_cons]
      show find_def v (instr.assign lv c r1 r2 :: l.map (optimize_stmt env)) = _
      rw [find_def_cons_assign, find_def_cons_assign, ih]
    | cond c =>
      rw [List.map_cons]
      show find_def v (instr.cond _ :: l.map (optimize_stmt env)) = _
      rw [find_def_cons_cond, find_def_cons_cond, ih]
    | label =>
      rw [List.map_cons]
      show find_def v (instr.label :: l.map (optimize_stmt env)) = _
      rw [find_def_cons_label, find_def_cons_label, ih]
    | other =>
      rw [List.map_cons]
      show find_def v (instr.other :: l.map (optimize_stmt env)) = _
      rw [find_def_cons_other, find_def_cons_other, ih]

lemma find_def_append_some (v : Nat) {g : gstmt} :
    ∀ {l1 : List instr} (l2 : List instr), find_def v l1 = some g →
      find_def v (l1 ++ l2) = some g := by
  intro l1
  induction l1 with
  | nil => intro l2 h; exact absurd h (by simp [find_def])
  | cons a l ih =>
    intro l2 h
    cases a with
    | assign lv c r1 r2 =>
      rw [find_def_cons_assign] at h
      rw [List.cons_append, find_def_cons_assign]
      by_cases hv : lv = v
      · rw [if_pos hv] at h ⊢
        exact h
      · rw [if_neg hv] at h ⊢
        exact ih l2 h
    | cond c =>
      rw [find_def_cons_cond] at h
      rw [List.cons_append, find_def_cons_cond]
      exact ih l2 h
    | label =>
      rw [find_def_cons_label] at h
      rw [List.cons_append, find_def_cons_label]
      exact ih l2 h
    | other =>
      rw [find_def_cons_other] at h
      rw [List.cons_append, find_def_cons_other]
      exact ih l2 h

lemma find_def_append_none (v : Nat) :
    ∀ {l1 : List instr} (l2 : List instr), find_def v l1 = none →
      find_def v (l1 ++ l2) = find_def v l2 := by
  intro l1
  induction l1 with
  | nil => intro l2 _; rfl
  | cons a l ih =>
    intro l2 h
    cases a with
    | assign lv c r1 r2 =>
      rw [find_def_cons_assign] at h
      rw [List.cons_append, find_def_cons_assign]
      by_cases hv : lv = v
      · rw [if_pos hv] at h
        exact absurd h (by simp)
      · rw [if_neg hv] at h ⊢
        exact ih l2 h
    | cond c =>
      rw [find_def_cons_cond] at h
      rw [List.cons_append, find_def_cons_cond]
      exact ih l2 h
    | label =>
      rw [find_def_cons_label] at h
      rw [List.cons_append, find_def_cons_label]
      exact ih l2 h
    | other =>
      rw [find_def_cons_other] at h
      rw [List.cons_append, find_def_cons_other]
      exact ih l2 h

/-- Replacing one block by a block with the same definition lookups
leaves every definition lookup of the flattened body unchanged. -/
lemma find_def_flatten_set (v : Nat) :
    ∀ (bs : List basic_block) (i : Nat) (b' : basic_block),
      (∀ u, find_def u b'.stmts = find_def u ((bs.getD i ⟨[]⟩)).stmts) →
      find_def v (((bs.set i b').map basic_block.stmts).flatten)
        = find_def v ((bs.map basic_block.stmts).flatten) := by
  intro bs
  induction bs with
  | nil => intro i b' _; rfl
  | cons hd tl ih =>
    intro i b' h
    cases i with
    | zero =>
      show find_def v (b'.stmts ++ (tl.map basic_block.stmts).flatten)
        = find_def v (hd.stmts ++ (tl.map basic_block.stmts).flatten)
      cases hfd : find_def v hd.stmts with
      | some g =>
        rw [find_def_append_some v _ (by rw [h v]; exact hfd),
            find_def_append_some v _ hfd]
      | none =>
        rw [find_def_append_none v _ (by rw [h v]; exact hfd),
            find_def_append_none v _ hfd]
    | succ n =>
      show find_def v (hd.stmts ++ ((tl.set n b').map basic_block.stmts).flatten)
        = find_def v (hd.stmts ++ (tl.map basic_block.stmts).flatten)
      cases hfd : find_def v hd.stmts with
      | some g =>
        rw [find_def_append_some v _ hfd, find_def_append_some v _ hfd]
      | none =>
        rw [find_def_append_none v _ hfd, find_def_append_none v _ hfd]
        exact ih n b' h

/-- One walk step leaves SSA_NAME_DEF_STMT pointwise unchanged: the only
instructions it rewrites are conditionals, which define nothing. -/
lemma SSA_NAME_DEF_STMT_walk_step (i : Nat) (f : function_body) :
    SSA_NAME_DEF_STMT (walk_step i f) = SSA_NAME_DEF_STMT f := by
  funext v
  unfold SSA_NAME_DEF_STMT body_stmts walk_step
  dsimp only
  rw [find_def_flatten_set v f.blocks i _ ?_]
  intro u
  rw [after_dom_children_eq_map]
  exact find_def_map_optimize (SSA_NAME_DEF_STMT f) u ((f.blocks.getD i ⟨[]⟩)).stmts

/-!  ## Order independence of the walk -/

lemma walk_step_eq (i : Nat) (f : function_body) :
    walk_step i f =
      ⟨f.blocks.set i (after_dom_children (SSA_NAME_DEF_STMT f) (f.blocks.getD i ⟨[]⟩)),
       f.edges⟩ := rfl

/-- Two walk steps commute: the definition lookup each uses is invariant
under the other, and list updates at two positions commute. -/
lemma walk_step_comm (i j : Nat) (f : function_body) :
    walk_step j (walk_step i f) = walk_step i (walk_step j f) := by
  by_cases hij : i = j
  · rw [hij]
  · rw [walk_step_eq j (walk_step i f), walk_step_eq i (walk_step j f),
        SSA_NAME_DEF_STMT_walk_step i f, SSA_NAME_DEF_STMT_walk_step j f,
        walk_step_eq i f, walk_step_eq j f]
    dsimp only
    rw [getD_set_ne _ _ f.blocks i j hij,
        getD_set_ne _ _ f.blocks j i (fun hc => hij hc.symm),
        List.set_comm _ _ _ (fun hc => hij hc.symm)]

/-- Walking the blocks in two orders that are permutations of each other
gives the same body. -/
lemma walk_blocks_perm {o1 o2 : List Nat} (h : o1.Perm o2) :
    ∀ f : function_body, walk_blocks o1 f = walk_blocks o2 f := by
  induction h with
  | nil => intro f; rfl
  | cons x _ ih => intro f; exact ih (walk_step x f)
  | swap x y l =>
    intro f
    show walk_blocks l (walk_step x (walk_step y f))
      = walk_blocks l (walk_step y (walk_step x f))
    rw [walk_step_comm]
  | trans _ _ ih1 ih2 => intro f; rw [ih1 f, ih2 f]

/-- C9: the walk's result does not depend on the visiting order — any
two traversals that visit every block of the function exactly once (two
permutations of the block indices, the dominator post-order being one)
produce the same rewritten function body. -/
theorem claim9 (f : function_body) (o1 o2 : List Nat)
    (h1 : o1.Perm (List.range f.blocks.length))
    (h2 : o2.Perm (List.range f.blocks.length)) :
    pass_cmp_execute o1 f = pass_cmp_execute o2 f :=
  walk_blocks_perm (h1.trans h2.symm) f

theorem claim9_witness :
    pass_cmp_execute [1, 0] fb9 = pass_cmp_execute [0, 1] fb9 :=
  claim9 fb9 [1, 0] [0, 1] (by decide) (by decide)

/-!  ## Frame conditions of the pass (claim C8) -/

/-- The rewriter's per-statement action fixes everything that is not a
conditional. -/
lemma optimize_stmt_noncond (env : Nat → gstmt) (s : instr) (hs : is_cond s = false) :
    optimize_stmt env s = s := by
  cases s with
  | cond c => exact absurd hs (by simp [is_cond])
  | assign lv c r1 r2 => rfl
  | label => rfl
  | other => rfl

/-- The rewriter's per-statement action defines nothing new and erases
no definition. -/
lemma def_version_of_optimize (env : Nat → gstmt) (s : instr) :
    def_version_of (optimize_stmt env s) = def_version_of s := by
  cases s <;> rfl

lemma dv_map_optimize (env : Nat → gstmt) :
    ∀ l : List instr,
      (l.map (optimize_stmt env)).filterMap def_version_of = l.filterMap def_version_of := by
  intro l
  induction l with
  | nil => rfl
  | cons a l ih =>
    rw [List.map_cons, List.filterMap_cons, List.filterMap_cons,
        def_version_of_optimize, ih]

lemma dv_flatten_set :
    ∀ (bs : List basic_block) (i : Nat) (b' : basic_block),
      b'.stmts.filterMap def_version_of
        = ((bs.getD i ⟨[]⟩)).stmts.filterMap def_version_of →
      ((((bs.set i b').map basic_block.stmts).flatten).filterMap def_version_of)
        = (((bs.map basic_block.stmts).flatten).filterMap def_version_of) := by
  intro bs
  induction bs with
  | nil => intro i b' _; rfl
  | cons hd tl ih =>
    intro i b' h
    cases i with
    | zero =>
      have h2 : b'.stmts.filterMap def_version_of = hd.stmts.filterMap def_version_of := h
      show ((b'.stmts ++ (tl.map basic_block.stmts).flatten).filterMap def_version_of)
        = ((hd.stmts ++ (tl.map basic_block.stmts).flatten).filterMap def_version_of)
      rw [List.filterMap_append, List.filterMap_append, h2]
    | succ n =>
      show ((hd.stmts ++ ((tl.set n b').map basic_block.stmts).flatten).filterMap
              def_version_of)
        = ((hd.stmts ++ (tl.map basic_block.stmts).flatten).filterMap def_version_of)
      rw [List.filterMap_append, List.filterMap_append, ih n b' h]

/-- One walk step changes no definition: the defined-version sequence of
the body is untouched. -/
lemma def_versions_walk_step (i : Nat) (f : function_body) :
    def_versions (walk_step i f) = def_versions f := by
  unfold def_versions body_stmts walk_step
  dsimp only
  rw [dv_flatten_set f.blocks i _ ?_]
  rw [after_dom_children_eq_map]
  exact dv_map_optimize (SSA_NAME_DEF_STMT f) ((f.blocks.getD i ⟨[]⟩)).stmts

/-- One walk step keeps every non-conditional statement in place. -/
lemma stmt_at_step_noncond (k : Nat) (f : function_body) (i j : Nat) (s : instr)
    (hs : is_cond s = false) (h : stmt_at f i j = some s) :
    stmt_at (walk_step k f) i j = some s := by
  unfold stmt_at walk_step
  dsimp only
  by_cases hik : i = k
  · subst hik
    by_cases hlen : i < f.blocks.length
    · rw [getD_set_self _ _ f.blocks i hlen, after_dom_children_eq_map]
      dsimp only
      unfold stmt_at at h
      rw [List.getElem?_map, h]
      show some (optimize_stmt (SSA_NAME_DEF_STMT f) s) = some s
      rw [optimize_stmt_noncond _ s hs]
    · unfold stmt_at at h
      rw [getD_of_le _ f.blocks i (Nat.le_of_not_lt hlen)] at h
      exact absurd h (by simp)
  · rw [getD_set_ne _ _ f.blocks k i (fun hc => hik hc.symm)]
    exact h

/-- One walk step maps a conditional to a conditional with the same
comparison code. -/
lemma stmt_at_step_cond (k : Nat) (f : function_body) (i j : Nat) (c : gcond)
    (h : stmt_at f i j = some (instr.cond c)) :
    ∃ c2, stmt_at (walk_step k f) i j = some (instr.cond c2) ∧ c2.code = c.code := by
  unfold stmt_at walk_step
  dsimp only
  by_cases hik : i = k
  · subst hik
    by_cases hlen : i < f.blocks.length
    · refine ⟨optimize_signed_comparison (SSA_NAME_DEF_STMT f) c, ?_,
        opt_code (SSA_NAME_DEF_STMT f) c⟩
      rw [getD_set_self _ _ f.blocks i hlen, after_dom_children_eq_map]
      dsimp only
      unfold stmt_at at h
      rw [List.getElem?_map, h]
      rfl
    · unfold stmt_at at h
      rw [getD_of_le _ f.blocks i (Nat.le_of_not_lt hlen)] at h
      exact absurd h (by simp)
  · refine ⟨c, ?_, rfl⟩
    rw [getD_set_ne _ _ f.blocks k i (fun hc => hik hc.symm)]
    exact h

/-- One walk step preserves every block's statement count. -/
lemma block_len_step (k : Nat) (f : function_body) (i : Nat) :
    ((walk_step k f).blocks.getD i ⟨[]⟩).stmts.length
      = ((f.blocks.getD i ⟨[]⟩)).stmts.length := by
  unfold walk_step
  dsimp only
  by_cases hik : i = k
  · subst hik
    by_cases hlen : i < f.blocks.length
    · rw [getD_set_self _ _ f.blocks i hlen, after_dom_children_eq_map]
      exact List.length_map _ _
    · rw [getD_of_le _ f.blocks i (Nat.le_of_not_lt hlen),
          getD_of_le _ _ i (by rw [List.length_set]; exact Nat.le_of_not_lt hlen)]
  · rw [getD_set_ne _ _ f.blocks k i (fun hc => hik hc.symm)]

lemma walk_blocks_cons (k : Nat) (rest : List Nat) (f : function_body) :
    walk_blocks (k :: rest) f = walk_blocks rest (walk_step k f) := rfl

lemma walk_step_edges (k : Nat) (f : function_body) :
    (walk_step k f).edges = f.edges := rfl

lemma walk_step_length (k : Nat) (f : function_body) :
    (walk_step k f).blocks.length = f.blocks.length := by
  unfold walk_step
  dsimp only
  simp [List.length_set]

/-- The frame of the whole walk, by composing the per-step lemmas along
the visiting order. -/
lemma walk_blocks_frame : ∀ (o : List Nat) (f : function_body),
    (walk_blocks o f).edges = f.edges ∧
    (walk_blocks o f).blocks.length = f.blocks.length ∧
    SSA_NAME_DEF_STMT (walk_blocks o f) = SSA_NAME_DEF_STMT f ∧
    def_versions (walk_blocks o f) = def_versions f ∧
    (∀ i, ((walk_blocks o f).blocks.getD i ⟨[]⟩).stmts.length
        = ((f.blocks.getD i ⟨[]⟩)).stmts.length) ∧
    (∀ i j s, is_cond s = false → stmt_at f i j = some s →
      stmt_at (walk_blocks o f) i j = some s) ∧
    (∀ i j c, stmt_at f i j = some (instr.cond c) →
      ∃ c2, stmt_at (walk_blocks o f) i j = some (instr.cond c2) ∧ c2.code = c.code) := by
  intro o
  induction o with
  | nil =>
    intro f
    exact ⟨rfl, rfl, rfl, rfl, fun i => rfl, fun i j s _ h => h, fun i j c h => ⟨c, h, rfl⟩⟩
  | cons k rest ih =>
    intro f
    rw [walk_blocks_cons]
    obtain ⟨he, hn, hd, hv, hbl, hnc, hcc⟩ := ih (walk_step k f)
    refine ⟨he.trans (walk_step_edges k f), hn.trans (walk_step_length k f),
      hd.trans (SSA_NAME_DEF_STMT_walk_step k f),
      hv.trans (def_versions_walk_step k f), ?_, ?_, ?_⟩
    · intro i
      exact (hbl i).trans (block_len_step k f i)
    · intro i j s hs h
      exact hnc i j s hs (stmt_at_step_noncond k f i j s hs h)
    · intro i j c h
      obtain ⟨c2, h2, hcode2⟩ := stmt_at_step_cond k f i j c h
      obtain ⟨c3, h3, hcode3⟩ := hcc i j c2 h2
      exact ⟨c3, h3, hcode3.trans hcode2⟩

/-- C8: the pass only touches the operand pairs of conditionals.  Edges,
block count, per-block statement counts, every non-conditional statement
(in particular every subtraction), every definition lookup and the
defined-version list are unchanged; conditionals stay conditionals with
the same operator; the SSA single-definition property is preserved. -/
theorem claim8 (f : function_body) (order : List Nat) :
    (pass_cmp_execute order f).edges = f.edges ∧
    (pass_cmp_execute order f).blocks.length = f.blocks.length ∧
    SSA_NAME_DEF_STMT (pass_cmp_execute order f) = SSA_NAME_DEF_STMT f ∧
    def_versions (pass_cmp_execute order f) = def_versions f ∧
    (∀ i, ((pass_cmp_execute order f).blocks.getD i ⟨[]⟩).stmts.length
        = ((f.blocks.getD i ⟨[]⟩)).stmts.length) ∧
    (∀ i j s, is_cond s = false → stmt_at f i j = some s →
      stmt_at (pass_cmp_execute order f) i j = some s) ∧
    (∀ i j c, stmt_at f i j = some (instr.cond c) →
      ∃ c2, stmt_at (pass_cmp_execute order f) i j = some (instr.cond c2) ∧
        c2.code = c.code) ∧
    (ssa_single_defs f → ssa_single_defs (pass_cmp_execute order f)) := by
  obtain ⟨he, hn, hd, hv, hbl, hnc, hcc⟩ := walk_blocks_frame order f
  exact ⟨he, hn, hd, hv, hbl, hnc, hcc, fun h => by
    unfold ssa_single_defs at h ⊢
    show (def_versions (walk_blocks order f)).Nodup
    rw [hv]
    exact h⟩

theorem claim8_witness :
    (pass_cmp_execute [0] fb6).edges = fb6.edges ∧
    stmt_at (pass_cmp_execute [0] fb6) 0 0
      = some (instr.assign 0 tree_code.MINUS_EXPR xT yT) ∧
    ssa_single_defs (pass_cmp_execute [0] fb6) :=
  ⟨(claim8 fb6 [0]).1,
   (claim8 fb6 [0]).2.2.2.2.2.1 0 0 (instr.assign 0 tree_code.MINUS_EXPR xT yT)
     (by decide) (by decide),
   (claim8 fb6 [0]).2.2.2.2.2.2.2 (by unfold ssa_single_defs; decide)⟩

end TreeSsaCmp
